import Mathlib

/-!
Verification of the Cryptee client-side security envelope.

The definitions below are a shallow embedding of the JavaScript source:
the encryption utilities (encryptData, decryptData, createEncryptedPayload,
decryptApiResponse, getSessionKey, resetSessionKey), the threat scanner
(scanFileForThreats, analyzeUrl, extractUrls, detectMacros,
detectSuspiciousPatterns, calculateEntropy), and the offline file
encrypt/decrypt naming logic of the dashboard (processedName).

JavaScript module-level mutable state (the session key) and the randomness
source are embedded by explicit state passing: CryptoState carries the
session key cell and a fresh-value supply standing for the randomness
stream consumed by key generation.
-/

namespace Cryptee

/-- A JSON-serializable JavaScript value (null, booleans, numbers, strings,
arrays, objects). The payload codec serializes such values before
encryption and parses them back after decryption. -/
inductive Json where
  | null : Json
  | bool (b : Bool) : Json
  | num (n : Int) : Json
  | str (s : String) : Json
  | arr (items : List Json) : Json
  | obj (fields : List (String × Json)) : Json

/-- Modelled from the spec: the canonical text form produced by the JS
builtin JSON.stringify (external library code, not in src). The spec only
requires a canonical serialization that JSON.parse inverts, so the text is
kept opaque, remembering exactly the serialized value. -/
structure SerializedText where
  val : Json

/-- Modelled from the spec: a CryptoJS AES-256 ciphertext (external library
code, not in src). The spec contract for SymmetricCipher is that decrypt
with the producing key recovers the plaintext and any other key fails, so
the ciphertext is kept opaque, remembering the plaintext and the key it
was produced with. -/
structure AESCipherText where
  payload : SerializedText
  passkey : String

/-- Modelled from the spec: JSON.stringify, serializing a value to its
canonical text form. -/
def jsonStringify (x : Json) : SerializedText := ⟨x⟩

/-- Modelled from the spec: JSON.parse, the inverse of jsonStringify. -/
def jsonParse (t : SerializedText) : Option Json := some t.val

/-- Modelled from the spec: CryptoJS.AES.encrypt with a passphrase key. -/
def aesEncrypt (p : SerializedText) (k : String) : AESCipherText := ⟨p, k⟩

/-- Modelled from the spec: CryptoJS.AES.decrypt; recovers the plaintext
under the matching key and fails (garbage that the UTF-8 decode rejects)
under any other key. -/
def aesDecrypt (c : AESCipherText) (k : String) : Option SerializedText :=
  if c.passkey = k then some c.payload else none

/-- Embeds encryptData: AES-encrypt the JSON serialization of the data
with the given key. -/
def encryptData (data : Json) (key : String) : AESCipherText :=
  aesEncrypt (jsonStringify data) key

/-- Embeds decryptData: AES-decrypt, decode, and JSON-parse; a wrong key
or malformed ciphertext raises, embedded as an error value. -/
def decryptData (c : AESCipherText) (key : String) : Except String Json :=
  match aesDecrypt c key with
  | some t =>
    match jsonParse t with
    | some j => Except.ok j
    | none => Except.error "Failed to decrypt data"
  | none => Except.error "Failed to decrypt data"

/-- The module state of the encryption utilities: the session key cell
(the module-level sessionKey variable, absent when null) and a supply
counter standing for the randomness stream consumed by key generation. -/
structure CryptoState where
  sessionKey : Option String
  supply : Nat

/-- Modelled from the spec: the distinct random key material produced by
the n-th draw from the randomness source. Distinct draws give distinct
(and always nonempty) strings. -/
def genKey (n : Nat) : String := String.mk (List.replicate (n + 1) 'k')

/-- Embeds generateEncryptionKey: draws fresh random key material. -/
def generateEncryptionKey (st : CryptoState) : String × CryptoState :=
  (genKey st.supply, { st with supply := st.supply + 1 })

/-- The encrypted envelope created by createEncryptedPayload. The
encryptedData field is optional because decryptApiResponse also accepts
responses in which the field is absent (JS undefined / falsy). -/
structure EncryptedEnvelope where
  encryptedData : Option AESCipherText
  key : String
  timestamp : Nat
  version : String

/-- The JS truthiness choice of a key in createEncryptedPayload: use the
sessionKey argument when it is present and nonempty, otherwise draw a
fresh key from generateEncryptionKey. -/
def keyOrFresh (arg : Option String) (st : CryptoState) : String × CryptoState :=
  match arg with
  | some s => if s = "" then generateEncryptionKey st else (s, st)
  | none => generateEncryptionKey st

/-- Embeds createEncryptedPayload: encrypt the data with the supplied key
(or a freshly generated one) and return the envelope carrying the
ciphertext, the key, the current timestamp and the fixed version tag. -/
def createEncryptedPayload (data : Json) (sessionKeyArg : Option String)
    (now : Nat) (st : CryptoState) : EncryptedEnvelope × CryptoState :=
  let ks := keyOrFresh sessionKeyArg st
  ({ encryptedData := some (encryptData data ks.1), key := ks.1,
     timestamp := now, version := "1.0" }, ks.2)

/-- Embeds decryptApiResponse: a response without an encryptedData field
is returned as-is (right injection), otherwise the ciphertext is
decrypted (left injection). -/
def decryptApiResponse (resp : EncryptedEnvelope) (key : String) :
    Except String (Sum Json EncryptedEnvelope) :=
  match resp.encryptedData with
  | none => Except.ok (Sum.inr resp)
  | some c =>
    match decryptData c key with
    | Except.ok j => Except.ok (Sum.inl j)
    | Except.error e => Except.error e

/-- Embeds getSessionKey: return the current session key, lazily drawing
a fresh one into the module cell when none exists. -/
def getSessionKey (st : CryptoState) : String × CryptoState :=
  match st.sessionKey with
  | some k => (k, st)
  | none =>
    let ks := generateEncryptionKey st
    (ks.1, { ks.2 with sessionKey := some ks.1 })

/-- Embeds resetSessionKey: clear the module session key cell. -/
def resetSessionKey (st : CryptoState) : CryptoState :=
  { st with sessionKey := none }

/-- Well-formedness of the crypto state: any stored session key was drawn
from the supply, at an index below the current supply counter. Holds for
the initial state and is preserved by every operation. -/
def SupplyWF (st : CryptoState) : Prop :=
  ∀ k, st.sessionKey = some k → ∃ i, i < st.supply ∧ k = genKey i

theorem genKey_inj {m n : Nat} (h : genKey m = genKey n) : m = n := by
  have hlen : (genKey m).data.length = (genKey n).data.length := by rw [h]
  simpa [genKey] using hlen

theorem genKey_ne_empty (n : Nat) : genKey n ≠ "" := by
  intro h
  have hlen : (genKey n).data.length = ("" : String).data.length := by rw [h]
  simp [genKey] at hlen

/-- C1: for every JSON-serializable value x and every valid (nonempty) key
k, unwrapping the envelope produced by wrapping x with k returns x, and at
the cipher level decryptData inverts encryptData under the same key. -/
theorem c1_wrap_unwrap_roundtrip (x : Json) (k : String) (now : Nat)
    (st : CryptoState) (hk : k ≠ "") :
    decryptApiResponse ((createEncryptedPayload x (some k) now st).1) k =
      Except.ok (Sum.inl x) ∧
    decryptData (encryptData x k) k = Except.ok x := by
  constructor
  · simp [createEncryptedPayload, keyOrFresh, hk, decryptApiResponse,
      decryptData, encryptData, aesEncrypt, aesDecrypt, jsonStringify, jsonParse]
  · simp [decryptData, encryptData, aesEncrypt, aesDecrypt, jsonStringify, jsonParse]

/-- Witness for C1 at a concrete value and key. -/
theorem c1_wrap_unwrap_roundtrip_witness :
    decryptApiResponse
        ((createEncryptedPayload (Json.str "hello") (some "sessionkey") 0
          ⟨none, 0⟩).1) "sessionkey" =
      Except.ok (Sum.inl (Json.str "hello")) ∧
    decryptData (encryptData (Json.str "hello") "sessionkey") "sessionkey" =
      Except.ok (Json.str "hello") :=
  c1_wrap_unwrap_roundtrip (Json.str "hello") "sessionkey" 0 ⟨none, 0⟩ (by decide)

/-- C2 counterexample: with the key argument omitted and a session key
already present, the envelope is keyed with a freshly generated key, not
with the key that getSessionKey returns. -/
theorem c2_counterexample :
    ((createEncryptedPayload (Json.str "x") none 0
        ⟨some (genKey 0), 1⟩).1).key ≠
      (getSessionKey ⟨some (genKey 0), 1⟩).1 := by
  decide

/-- C2 (amended): calling createEncryptedPayload with the key omitted
draws a fresh key from generateEncryptionKey — it does not consult the
session key cell, which is left untouched — and the envelope key field
equals that fresh key, which decrypts the envelope back to the data. -/
theorem c2_omitted_key_uses_fresh_key (x : Json) (now : Nat) (st : CryptoState) :
    ((createEncryptedPayload x none now st).1).key = genKey st.supply ∧
    ((createEncryptedPayload x none now st).2).sessionKey = st.sessionKey ∧
    decryptApiResponse ((createEncryptedPayload x none now st).1)
        (genKey st.supply) = Except.ok (Sum.inl x) := by
  refine ⟨rfl, rfl, ?_⟩
  simp [createEncryptedPayload, keyOrFresh, generateEncryptionKey,
    decryptApiResponse, decryptData, encryptData, aesEncrypt, aesDecrypt,
    jsonStringify, jsonParse]

/-- C7: two consecutive getSessionKey calls with no intervening reset
return the identical key (and leave the state unchanged); after
resetSessionKey the session cell is absent, and the next getSessionKey
returns a freshly generated key distinct from the previous one. -/
theorem c7_session_key_stability (st : CryptoState) (hwf : SupplyWF st) :
    (getSessionKey (getSessionKey st).2).1 = (getSessionKey st).1 ∧
    (getSessionKey (getSessionKey st).2).2 = (getSessionKey st).2 ∧
    (resetSessionKey (getSessionKey st).2).sessionKey = none ∧
    (getSessionKey (resetSessionKey (getSessionKey st).2)).1 ≠
      (getSessionKey st).1 := by
  match hcell : st.sessionKey with
  | some k =>
    obtain ⟨i, hi, hk⟩ := hwf k hcell
    refine ⟨?_, ?_, ?_, ?_⟩
    · simp [getSessionKey, hcell]
    · simp [getSessionKey, hcell]
    · simp [resetSessionKey]
    · simp only [getSessionKey, hcell, resetSessionKey, generateEncryptionKey]
      intro h
      have := genKey_inj (hk ▸ h)
      omega
  | none =>
    refine ⟨?_, ?_, ?_, ?_⟩
    · simp [getSessionKey, hcell, generateEncryptionKey]
    · simp [getSessionKey, hcell, generateEncryptionKey]
    · simp [resetSessionKey]
    · simp only [getSessionKey, hcell, resetSessionKey, generateEncryptionKey]
      intro h
      have := genKey_inj h
      omega

/-- Witness for C7 at a concrete well-formed state. -/
theorem c7_session_key_stability_witness :
    (getSessionKey (getSessionKey ⟨some (genKey 0), 1⟩).2).1 =
      (getSessionKey ⟨some (genKey 0), 1⟩).1 ∧
    (getSessionKey (getSessionKey ⟨some (genKey 0), 1⟩).2).2 =
      (getSessionKey ⟨some (genKey 0), 1⟩).2 ∧
    (resetSessionKey (getSessionKey ⟨some (genKey 0), 1⟩).2).sessionKey = none ∧
    (getSessionKey (resetSessionKey (getSessionKey ⟨some (genKey 0), 1⟩).2)).1 ≠
      (getSessionKey ⟨some (genKey 0), 1⟩).1 :=
  c7_session_key_stability ⟨some (genKey 0), 1⟩
    (fun _ hk => ⟨0, Nat.one_pos, (Option.some.inj hk).symm⟩)

/-- Embeds the JS String.prototype.includes test (used as content.includes
and domain.includes in the scanner): does pat occur as a contiguous
substring? -/
def includesAux (l pat : List Char) : Bool :=
  match l with
  | [] => pat.isEmpty
  | c :: rest => pat.isPrefixOf (c :: rest) || includesAux rest pat

/-- String-level wrapper for includesAux. -/
def strIncludes (s pat : String) : Bool :=
  includesAux s.data pat.data

/-- Splits a character list around the first occurrence of pat, the way
JS String.prototype.replace locates its match: returns the part before
the match and the part after it, or nothing when pat does not occur. -/
def splitFirst (l pat : List Char) : Option (List Char × List Char) :=
  match l with
  | [] => if pat.isEmpty then some ([], []) else none
  | c :: rest =>
    if pat.isPrefixOf (c :: rest) then some ([], (c :: rest).drop pat.length)
    else
      match splitFirst rest pat with
      | some (b, a) => some (c :: b, a)
      | none => none

/-- Embeds the JS call s.replace(pat, rep) with a string pattern: replace
the first occurrence of pat (if any) by rep. -/
def jsReplaceFirst (s pat rep : String) : String :=
  match splitFirst s.data pat.data with
  | some (b, a) => String.mk (b ++ rep.data ++ a)
  | none => s

/-- The processing mode of the offline encrypt/decrypt dashboard. -/
inductive CipherMode where
  | encrypt : CipherMode
  | decrypt : CipherMode

/-- Embeds the processedName computation of Dashboard.processFile: encrypt
mode appends the fixed suffix, decrypt mode removes the first occurrence
of the suffix via String.replace. -/
def processedName (mode : CipherMode) (name : String) : String :=
  match mode with
  | CipherMode.encrypt => name ++ ".encrypted"
  | CipherMode.decrypt => jsReplaceFirst name ".encrypted" ""

theorem pat_dot_only :
    ∀ i : Fin ".encrypted".data.length,
      0 < i.val → ".encrypted".data.get i ≠ '.' := by
  decide

theorem splitFirst_append_pat (l : List Char)
    (hno : includesAux l ".encrypted".data = false) :
    splitFirst (l ++ ".encrypted".data) ".encrypted".data = some (l, []) := by
  induction l with
  | nil => decide
  | cons c rest ih =>
    have hsplit : ".encrypted".data.isPrefixOf (c :: rest) = false ∧
        includesAux rest ".encrypted".data = false := by
      have := hno
      simp only [includesAux, Bool.or_eq_false_iff] at this
      exact this
    have hkey : ".encrypted".data.isPrefixOf ((c :: rest) ++ ".encrypted".data) = false := by
      by_contra hcon
      have hpre : ".encrypted".data <+: ((c :: rest) ++ ".encrypted".data) :=
        List.isPrefixOf_iff_prefix.mp (by
          cases hb : ".encrypted".data.isPrefixOf ((c :: rest) ++ ".encrypted".data) with
          | false => exact absurd hb hcon
          | true => rfl)
      have hposlen : 0 < ".encrypted".data.length := by decide
      by_cases hlen : ".encrypted".data.length ≤ (c :: rest).length
      · have hin : ".encrypted".data <+: (c :: rest) :=
          List.prefix_of_prefix_length_le hpre (List.prefix_append (c :: rest)
            ".encrypted".data) hlen
        have : ".encrypted".data.isPrefixOf (c :: rest) = true :=
          List.isPrefixOf_iff_prefix.mpr hin
        rw [hsplit.1] at this
        exact Bool.false_ne_true this
      · push_neg at hlen
        have hj : (c :: rest).length < ".encrypted".data.length := hlen
        have hb2 : (c :: rest).length < ((c :: rest) ++ ".encrypted".data).length := by
          simp only [List.cons_append, List.length_append, List.length_cons]
          omega
        have e1 : ".encrypted".data.get ⟨(c :: rest).length, hj⟩ =
            ((c :: rest) ++ ".encrypted".data).get ⟨(c :: rest).length, hb2⟩ := by
          rw [List.get_eq_getElem, List.get_eq_getElem]
          exact hpre.getElem hj
        have e2 : ((c :: rest) ++ ".encrypted".data).get ⟨(c :: rest).length, hb2⟩ =
            ".encrypted".data.get ⟨0, hposlen⟩ := by
          rw [List.get_eq_getElem, List.get_eq_getElem]
          rw [List.getElem_append_right (Nat.le_refl _)]
          simp only [Nat.sub_self]
        have e3 : ".encrypted".data.get ⟨(c :: rest).length, hj⟩ = '.' := by
          rw [e1, e2]
          rfl
        have hn0 : 0 < (c :: rest).length := by simp
        exact pat_dot_only ⟨(c :: rest).length, hj⟩ hn0 e3
    show splitFirst (c :: (rest ++ ".encrypted".data)) ".encrypted".data = _
    rw [splitFirst]
    simp only [List.cons_append] at hkey
    rw [hkey]
    simp only [Bool.false_eq_true, if_false]
    rw [ih hsplit.2]

/-- C8 counterexample: for the original filename a.encrypted.txt, decrypt
mode applied to a.encrypted.txt.encrypted removes the FIRST occurrence of
the suffix and names the output a.txt.encrypted, not a.encrypted.txt. -/
theorem c8_counterexample :
    processedName CipherMode.decrypt ("a.encrypted.txt" ++ ".encrypted") ≠
      "a.encrypted.txt" := by
  decide

/-- C8 (amended): encrypt mode names the output n ++ ".encrypted" for
every n; decrypt mode removes the first occurrence of ".encrypted", which
reverses the suffix exactly when the original name does not itself
contain ".encrypted" as a substring. -/
theorem c8_filename_roundtrip :
    (∀ n : String, processedName CipherMode.encrypt n = n ++ ".encrypted") ∧
    (∀ n : String, strIncludes n ".encrypted" = false →
      processedName CipherMode.decrypt (n ++ ".encrypted") = n) := by
  constructor
  · intro n
    rfl
  · intro n hn
    show jsReplaceFirst (n ++ ".encrypted") ".encrypted" "" = n
    unfold jsReplaceFirst
    have hdata : (n ++ ".encrypted").data = n.data ++ ".encrypted".data := by
      cases n
      rfl
    rw [hdata, splitFirst_append_pat n.data hn]
    show String.mk (n.data ++ [] ++ []) = n
    cases n
    simp

/-- Witness for C8 (amended) at a concrete filename. -/
theorem c8_filename_roundtrip_witness :
    processedName CipherMode.decrypt ("report.pdf" ++ ".encrypted") = "report.pdf" :=
  c8_filename_roundtrip.2 "report.pdf" (by decide)

/-- Severity of a scanner finding. -/
inductive Severity where
  | low : Severity
  | medium : Severity
  | high : Severity
deriving DecidableEq

/-- Risk tier of a URL analysis or of a whole scan. -/
inductive RiskLevel where
  | low : RiskLevel
  | medium : RiskLevel
  | high : RiskLevel
  | unknown : RiskLevel
deriving DecidableEq

/-- The details attached to a finding: either a list of reasons or a
single text, matching the two shapes the JS code stores there. -/
inductive DetailVal where
  | arr (items : List String) : DetailVal
  | txt (s : String) : DetailVal
deriving DecidableEq

/-- A single scanner finding (threat or warning). -/
structure Finding where
  type : String
  severity : Severity
  message : String
  details : Option DetailVal
deriving DecidableEq

/-- The structured report returned by scanFileForThreats. -/
structure ScanResult where
  threats : List Finding
  warnings : List Finding
  score : Nat
  risk : RiskLevel
  error : Option String
deriving DecidableEq

/-- The phishingPatterns.suspiciousTlds list. -/
def suspiciousTlds : List String :=
  [".tk", ".ml", ".ga", ".cf", ".gq", ".xyz", ".top", ".club", ".online",
   ".site", ".space", ".website"]

/-- The phishingPatterns.urlShorteners list. -/
def urlShorteners : List String :=
  ["bit.ly", "tinyurl.com", "goo.gl", "t.co", "ow.ly", "buff.ly", "adf.ly",
   "is.gd", "v.gd", "tiny.cc"]

/-- The phishingPatterns.suspiciousKeywords list. -/
def suspiciousKeywords : List String :=
  ["login", "password", "verify", "account", "security", "bank", "paypal",
   "amazon", "update", "confirm"]

/-- The phishingPatterns.macroKeywords list. -/
def macroKeywords : List String :=
  ["autoopen", "autoclose", "document_open", "document_close", "vba",
   "macro", "shell", "exec", "run"]

/-- The phishingPatterns.encodedContent list. -/
def encodedContent : List String :=
  ["eval(", "base64", "atob(", "btoa(", "unescape(", "decodeURIComponent("]

/-- The phishingPatterns.suspiciousExtensions list. -/
def suspiciousExtensions : List String :=
  [".exe", ".bat", ".cmd", ".scr", ".pif", ".com", ".vbs", ".js", ".jar", ".hta"]

/-- Embeds the JS toLowerCase call on the ASCII strings the scanner
handles. -/
def jsToLower (s : String) : String := String.mk (s.data.map Char.toLower)

/-- Embeds the JS split call with a single-character separator (the only
separators the scanner uses are the dot and the newline). -/
def splitOnCharAux (sep : Char) (l : List Char) (cur : List Char) : List String :=
  match l with
  | [] => [String.mk cur.reverse]
  | c :: rest =>
    if c = sep then String.mk cur.reverse :: splitOnCharAux sep rest []
    else splitOnCharAux sep rest (c :: cur)

/-- String-level wrapper for splitOnCharAux. -/
def splitOnChar (sep : Char) (s : String) : List String :=
  splitOnCharAux sep s.data []

/-- Embeds the JS endsWith test. -/
def strEndsWith (s suffixStr : String) : Bool :=
  suffixStr.data.isSuffixOf s.data

/-- Embeds the JS startsWith test. -/
def strStartsWith (s p : String) : Bool :=
  p.data.isPrefixOf s.data

/-- Embeds the JS Array.prototype.join call with a separator. -/
def joinWith (sep : String) : List String → String
  | [] => ""
  | [x] => x
  | x :: y :: rest => x ++ sep ++ joinWith sep (y :: rest)

/-- The JS regex whitespace class, restricted to the characters that can
appear in the extracted ASCII text plus the common unicode spaces. -/
def jsSpace (c : Char) : Bool :=
  c = ' ' || c = '\t' || c = '\n' || c = '\r' || c = Char.ofNat 11 ||
    c = Char.ofNat 12 || c = Char.ofNat 0xA0 || c = Char.ofNat 0xFEFF

/-- The negated character class of the URL regex: a URL run stops at
whitespace, angle brackets, double quotes and apostrophes. -/
def urlBreak (c : Char) : Bool :=
  jsSpace c || c = '<' || c = '>' || c = '"' || c = Char.ofNat 39

/-- The leading character class of the bare-domain URL alternative. -/
def isAlphaNumDash (c : Char) : Bool := c.isAlpha || c.isDigit || c = '-'

/-- First alternative of the URL regex: an explicit http or https scheme
followed by at least one non-break character, matched greedily. -/
def matchSchemeUrl (l : List Char) : Option (List Char × List Char) :=
  if "https://".data.isPrefixOf l then
    let body := List.span (fun c => !urlBreak c) (l.drop 8)
    if body.1.isEmpty then none else some ("https://".data ++ body.1, body.2)
  else if "http://".data.isPrefixOf l then
    let body := List.span (fun c => !urlBreak c) (l.drop 7)
    if body.1.isEmpty then none else some ("http://".data ++ body.1, body.2)
  else none

/-- Second alternative of the URL regex: a www. prefix followed by at
least one non-break character, matched greedily. -/
def matchWwwUrl (l : List Char) : Option (List Char × List Char) :=
  if "www.".data.isPrefixOf l then
    let body := List.span (fun c => !urlBreak c) (l.drop 4)
    if body.1.isEmpty then none else some ("www.".data ++ body.1, body.2)
  else none

/-- Third alternative of the URL regex: a run of letters, digits and
dashes, a literal dot, at least two letters, then any non-break
characters, all matched greedily (the greedy runs need no backtracking
because consecutive classes are dot-free or supersets). -/
def matchBareUrl (l : List Char) : Option (List Char × List Char) :=
  let d := List.span isAlphaNumDash l
  if d.1.isEmpty then none
  else
    match d.2 with
    | '.' :: afterDot =>
      let letters := List.span (fun c => c.isAlpha) afterDot
      if letters.1.length < 2 then none
      else
        let tail2 := List.span (fun c => !urlBreak c) letters.2
        some (d.1 ++ '.' :: (letters.1 ++ tail2.1), tail2.2)
    | _ => none

/-- The full URL regex at one position: the three alternatives are tried
in the order they appear in the pattern. -/
def tryMatchUrl (l : List Char) : Option (List Char × List Char) :=
  match matchSchemeUrl l with
  | some r => some r
  | none =>
    match matchWwwUrl l with
    | some r => some r
    | none => matchBareUrl l

/-- Global regex scan: at each position try a match; on success continue
after the match, otherwise advance one character. Every match consumes at
least one character, so the input length bounds the steps. -/
def scanUrls (fuel : Nat) (l : List Char) : List String :=
  match fuel, l with
  | 0, _ => []
  | _, [] => []
  | fuel + 1, c :: rest =>
    match tryMatchUrl (c :: rest) with
    | some m => String.mk m.1 :: scanUrls fuel m.2
    | none => scanUrls fuel rest

/-- De-duplication via a JS Set, which keeps first occurrences in
insertion order. -/
def dedupKeepFirst (l : List String) (seen : List String) : List String :=
  match l with
  | [] => []
  | x :: xs =>
    if seen.contains x then dedupKeepFirst xs seen
    else x :: dedupKeepFirst xs (x :: seen)

/-- Embeds extractUrls: all regex matches in order, de-duplicated. -/
def extractUrls (content : String) : List String :=
  dedupKeepFirst (scanUrls content.data.length content.data) []

/-- The mutable analysis object of analyzeUrl. -/
structure UrlAnalysis where
  risk : RiskLevel
  reasons : List String
deriving DecidableEq

/-- Suspicious-TLD rule of analyzeUrl: unconditionally sets risk high. -/
def ruleTld (domain : String) (a : UrlAnalysis) : UrlAnalysis :=
  if suspiciousTlds.contains ("." ++ (splitOnChar '.' domain).getLastD "") then
    { risk := RiskLevel.high, reasons := a.reasons ++ ["Suspicious top-level domain"] }
  else a

/-- URL-shortener rule of analyzeUrl: unconditionally sets risk medium. -/
def ruleShortener (domain : String) (a : UrlAnalysis) : UrlAnalysis :=
  if urlShorteners.any (fun s => strIncludes domain s) then
    { risk := RiskLevel.medium, reasons := a.reasons ++ ["URL shortener service"] }
  else a

/-- Suspicious-keyword rule of analyzeUrl: raises low to medium only. -/
def ruleKeywords (domain path : String) (a : UrlAnalysis) : UrlAnalysis :=
  if suspiciousKeywords.any (fun kw => strIncludes domain kw || strIncludes path kw) then
    if a.risk = RiskLevel.low then
      { risk := RiskLevel.medium, reasons := a.reasons ++ ["Contains suspicious keywords"] }
    else { a with reasons := a.reasons ++ ["Contains suspicious keywords"] }
  else a

/-- The dotted-IPv4 test of the ipRegex in analyzeUrl: exactly four dot
separated groups of one to three digits. -/
def isIpv4Literal (domain : String) : Bool :=
  let parts := splitOnChar '.' domain
  parts.length == 4 &&
    parts.all (fun p =>
      !p.data.isEmpty && decide (p.data.length ≤ 3) && p.data.all Char.isDigit)

/-- IP-literal rule of analyzeUrl: unconditionally sets risk high. -/
def ruleIp (domain : String) (a : UrlAnalysis) : UrlAnalysis :=
  if isIpv4Literal domain then
    { risk := RiskLevel.high, reasons := a.reasons ++ ["Uses IP address instead of domain"] }
  else a

/-- Long-subdomain-chain rule of analyzeUrl: raises low to medium only
(the reason is recorded whenever the rule fires). -/
def ruleSubdomains (domain : String) (a : UrlAnalysis) : UrlAnalysis :=
  if (splitOnChar '.' domain).length > 3 then
    if a.risk = RiskLevel.low then
      { risk := RiskLevel.medium, reasons := a.reasons ++ ["Unusually long subdomain chain"] }
    else { a with reasons := a.reasons ++ ["Unusually long subdomain chain"] }
  else a

/-- Four or more identical consecutive characters, the regex (.)\1{3,}. -/
def hasCharRepetition (l : List Char) : Bool :=
  match l with
  | c1 :: c2 :: c3 :: c4 :: rest =>
    (c1 == c2 && c2 == c3 && c3 == c4) || hasCharRepetition (c2 :: c3 :: c4 :: rest)
  | _ => false

/-- Character-repetition rule of analyzeUrl: raises low to medium only
(the reason is recorded whenever the rule fires). -/
def ruleRepeat (domain : String) (a : UrlAnalysis) : UrlAnalysis :=
  if hasCharRepetition domain.data then
    if a.risk = RiskLevel.low then
      { risk := RiskLevel.medium, reasons := a.reasons ++ ["Repeated characters in domain"] }
    else { a with reasons := a.reasons ++ ["Repeated characters in domain"] }
  else a

/-- The six classification rules of analyzeUrl applied to a parsed
hostname and pathname, in source order. -/
def analyzeUrlParts (domain path : String) : UrlAnalysis :=
  ruleRepeat domain (ruleSubdomains domain (ruleIp domain (ruleKeywords domain
    path (ruleShortener domain (ruleTld domain
      { risk := RiskLevel.low, reasons := [] })))))

/-- Strips everything after the last at sign, the userinfo part of a URL
authority. -/
def afterLastAt (l : List Char) : List Char :=
  l.foldl (fun acc c => if c = '@' then [] else acc ++ [c]) []

/-- Modelled from the spec: the WHATWG URL constructor used by analyzeUrl
(a JS builtin, not in src), reduced to what the scanner reads from it:
hostname and pathname of an http(s) URL, lowercased by the caller. A URL
starting with http is parsed as-is, anything else gets the scheme
prepended first; parsing fails (the constructor throws) when no nonempty
host can be formed. -/
def parseHostPath (url : String) : Option (String × String) :=
  let rest :=
    if strStartsWith url "http://" then some (url.data.drop 7)
    else if strStartsWith url "https://" then some (url.data.drop 8)
    else if strStartsWith url "http" then none
    else some url.data
  match rest with
  | none => none
  | some l =>
    let auth := List.span (fun c => !(c = '/' || c = '?' || c = '#')) l
    let hostPort := afterLastAt auth.1
    let host := List.span (fun c => !(c = ':')) hostPort
    if host.1.isEmpty then none
    else
      let pathq := List.span (fun c => !(c = '?' || c = '#')) auth.2
      let path := if pathq.1.isEmpty then "/" else String.mk pathq.1
      some (String.mk host.1, path)

/-- Embeds analyzeUrl: parse the URL and run the six rules, or report a
malformed URL as a medium risk. -/
def analyzeUrl (url : String) : UrlAnalysis :=
  match parseHostPath url with
  | some hp => analyzeUrlParts (jsToLower hp.1) (jsToLower hp.2)
  | none => { risk := RiskLevel.medium, reasons := ["Malformed URL"] }

/-- The analysis object of detectMacros. -/
structure MacroScan where
  hasMacros : Bool
  details : List String
deriving DecidableEq

/-- The office file extensions noted by detectMacros. -/
def officeExtHit (filename : String) : Bool :=
  strEndsWith filename ".docm" || strEndsWith filename ".xlsm" ||
    strEndsWith filename ".pptm" || strEndsWith filename ".doc" ||
    strEndsWith filename ".xls" || strEndsWith filename ".ppt"

/-- Embeds detectMacros: VBA markers or macro keywords flag the file;
office extensions only add a note. -/
def detectMacros (content filename : String) : MacroScan :=
  let vba := strIncludes content "Sub " || strIncludes content "Function " ||
    strIncludes content "Private Sub" || strIncludes content "Public Sub"
  let found := macroKeywords.filter (fun kw => strIncludes (jsToLower content) (jsToLower kw))
  let d1 := if vba then ["Contains VBA macro code"] else []
  let d2 := if found.isEmpty then []
    else ["Found macro keywords: " ++ joinWith ", " found]
  let d3 := if officeExtHit filename then ["File type commonly contains macros"] else []
  { hasMacros := vba || !found.isEmpty, details := d1 ++ d2 ++ d3 }

/-- One step of the character-frequency accumulation of
calculateEntropy. -/
def charCountsAux (l : List (Char × Nat)) (c : Char) : List (Char × Nat) :=
  match l with
  | [] => [(c, 1)]
  | (d, k) :: rest => if d = c then (d, k + 1) :: rest else (d, k) :: charCountsAux rest c

/-- The character-frequency table of calculateEntropy, in first
occurrence order. -/
def charCounts (s : String) : List (Char × Nat) := s.data.foldl charCountsAux []

/-- Exact-arithmetic rendering of the comparison
calculateEntropy(content) > 7.5 made by detectSuspiciousPatterns: with
counts c_i summing to n, the Shannon entropy exceeds 15/2 iff
prod c_i ^ (2 c_i) * 2 ^ (15 n) < n ^ (2 n). The equivalence with the
real-valued entropy is proved below (entropyAboveThreshold_iff). -/
def entropyAboveThreshold (counts : List (Char × Nat)) : Bool :=
  let n := (counts.map (fun e => e.2)).sum
  decide ((counts.map (fun e => e.2 ^ (2 * e.2))).prod * 2 ^ (15 * n) < n ^ (2 * n))

/-- The two-byte 0x90 0x90 signature checked together with MZ. -/
def nopSled : String := String.mk [Char.ofNat 144, Char.ofNat 144]

/-- Embeds detectSuspiciousPatterns: encoded-content fragments,
executable signatures, over-long lines and high entropy. -/
def detectSuspiciousPatterns (content : String) : List Finding :=
  let encodedFound := encodedContent.filter (fun p => strIncludes content p)
  let p1 := if encodedFound.isEmpty then []
    else [{ type := "encoded_content", severity := Severity.high,
            message := "File contains encoded or obfuscated content",
            details := some (DetailVal.txt ("Found patterns: " ++
              joinWith ", " encodedFound)) }]
  let p2 := if strIncludes content "MZ" && strIncludes content nopSled then
    [{ type := "executable_content", severity := Severity.high,
       message := "File contains executable code patterns", details := none }]
    else []
  let p3 := if ((splitOnChar '\n' content).filter (fun ln => ln.data.length > 1000)).isEmpty
    then []
    else [{ type := "suspicious_formatting", severity := Severity.medium,
            message := "File contains unusually long lines that may indicate obfuscation",
            details := none }]
  let p4 := if entropyAboveThreshold (charCounts content) then
    [{ type := "high_entropy", severity := Severity.medium,
       message := "File has high entropy, possibly containing compressed or encrypted data",
       details := none }]
    else []
  p1 ++ p2 ++ p3 ++ p4

/-- The final risk classification of scanFileForThreats from the
accumulated score. -/
def riskOfScore (score : Nat) : RiskLevel :=
  if score ≥ 50 then RiskLevel.high
  else if score ≥ 20 then RiskLevel.medium
  else RiskLevel.low

/-- One iteration of the URL loop of scanFileForThreats: a high-risk URL
adds a phishing threat and 25 points, a medium-risk URL adds a
suspicious-URL warning and 10 points. -/
def urlStep (acc : List Finding × List Finding × Nat) (url : String) :
    List Finding × List Finding × Nat :=
  if (analyzeUrl url).risk = RiskLevel.high then
    (acc.1 ++ [{ type := "phishing_url", severity := Severity.high,
                 message := "Suspicious URL detected: " ++ url,
                 details := some (DetailVal.arr (analyzeUrl url).reasons) }],
     acc.2.1, acc.2.2 + 25)
  else if (analyzeUrl url).risk = RiskLevel.medium then
    (acc.1,
     acc.2.1 ++ [{ type := "suspicious_url", severity := Severity.medium,
                   message := "Potentially suspicious URL: " ++ url,
                   details := some (DetailVal.arr (analyzeUrl url).reasons) }],
     acc.2.2 + 10)
  else acc

/-- The URL loop of scanFileForThreats: accumulates phishing threats,
suspicious-URL warnings and their score contributions in order. -/
def urlFindings (urls : List String) : List Finding × List Finding × Nat :=
  urls.foldl urlStep ([], [], 0)

/-- Embeds scanFileForThreats. The asynchronous readFileContent step is
passed in as an Except value; the catch branch of the source maps a read
failure to the unknown-risk result, so the function is total and never
raises. -/
def scanFileForThreats (name : String) (size : Nat)
    (readResult : Except String String) : ScanResult :=
  match readResult with
  | Except.error e =>
    { threats := [], warnings := [], score := 0, risk := RiskLevel.unknown,
      error := some ("Failed to scan file: " ++ e) }
  | Except.ok content =>
    let fileName := jsToLower name
    let extHit := suspiciousExtensions.any (fun x => strEndsWith fileName x)
    let extThreats := if extHit then
      [{ type := "suspicious_extension", severity := Severity.high,
         message := "File has suspicious extension: " ++ (splitOnChar '.' name).getLastD name,
         details := none }]
      else []
    let extScore := if extHit then 30 else 0
    let uf := urlFindings (extractUrls content)
    let ms := detectMacros content fileName
    let macroThreats := if ms.hasMacros then
      [{ type := "macro_malware", severity := Severity.high,
         message := "File contains potentially malicious macros",
         details := some (DetailVal.arr ms.details) }]
      else []
    let macroScore := if ms.hasMacros then 40 else 0
    let pats := detectSuspiciousPatterns content
    let patThreats := pats.filter (fun p => p.severity == Severity.high)
    let patWarnings := pats.filter (fun p => !(p.severity == Severity.high))
    let patScore := 20 * patThreats.length + 5 * patWarnings.length
    let sizeWarnings := if size > 50 * 1024 * 1024 then
      [{ type := "large_file", severity := Severity.low,
         message := "Unusually large file size may indicate packed malware",
         details := none }]
      else []
    let sizeScore := if size > 50 * 1024 * 1024 then 5 else 0
    let score := extScore + uf.2.2 + macroScore + patScore + sizeScore
    { threats := extThreats ++ uf.1 ++ macroThreats ++ patThreats,
      warnings := uf.2.1 ++ patWarnings ++ sizeWarnings,
      score := score,
      risk := riskOfScore score,
      error := none }

/-- The ordering of URL risk tiers, low < medium < high. The unknown
tier never occurs inside analyzeUrl and is ranked at the bottom. -/
def riskRank : RiskLevel → Nat
  | RiskLevel.low => 0
  | RiskLevel.medium => 1
  | RiskLevel.high => 2
  | RiskLevel.unknown => 0

/-- C3 counterexample: on the host bit.ly.xyz the suspicious-TLD rule
sets the risk to high, and the URL-shortener rule applied next lowers it
back to medium, so that rule is not monotone. -/
theorem c3_counterexample :
    (ruleTld "bit.ly.xyz" ⟨RiskLevel.low, []⟩).risk = RiskLevel.high ∧
    riskRank ((ruleShortener "bit.ly.xyz"
        (ruleTld "bit.ly.xyz" ⟨RiskLevel.low, []⟩)).risk) <
      riskRank ((ruleTld "bit.ly.xyz" ⟨RiskLevel.low, []⟩).risk) := by
  decide

/-- C3 (amended): five of the six URL rules never lower the risk tier;
the URL-shortener rule instead sets the tier to medium unconditionally
whenever a shortener domain substring matches, which lowers a high tier
set by the suspicious-TLD rule. -/
theorem c3_rules_monotone_except_shortener :
    (∀ (domain : String) (a : UrlAnalysis),
      riskRank a.risk ≤ riskRank (ruleTld domain a).risk) ∧
    (∀ (domain path : String) (a : UrlAnalysis),
      riskRank a.risk ≤ riskRank (ruleKeywords domain path a).risk) ∧
    (∀ (domain : String) (a : UrlAnalysis),
      riskRank a.risk ≤ riskRank (ruleIp domain a).risk) ∧
    (∀ (domain : String) (a : UrlAnalysis),
      riskRank a.risk ≤ riskRank (ruleSubdomains domain a).risk) ∧
    (∀ (domain : String) (a : UrlAnalysis),
      riskRank a.risk ≤ riskRank (ruleRepeat domain a).risk) ∧
    (∀ (domain : String) (a : UrlAnalysis),
      (ruleShortener domain a).risk =
        if urlShorteners.any (fun s => strIncludes domain s) then RiskLevel.medium
        else a.risk) := by
  refine ⟨?_, ?_, ?_, ?_, ?_, ?_⟩
  · intro domain a
    unfold ruleTld
    split
    · cases a.risk <;> simp [riskRank]
    · exact Nat.le_refl _
  · intro domain path a
    unfold ruleKeywords
    split
    · split
      · next h => rw [h]; simp [riskRank]
      · exact Nat.le_refl _
    · exact Nat.le_refl _
  · intro domain a
    unfold ruleIp
    split
    · cases a.risk <;> simp [riskRank]
    · exact Nat.le_refl _
  · intro domain a
    unfold ruleSubdomains
    split
    · split
      · next h => rw [h]; simp [riskRank]
      · exact Nat.le_refl _
    · exact Nat.le_refl _
  · intro domain a
    unfold ruleRepeat
    split
    · split
      · next h => rw [h]; simp [riskRank]
      · exact Nat.le_refl _
    · exact Nat.le_refl _
  · intro domain a
    unfold ruleShortener
    split <;> rfl

/-- The threshold behavior of the final risk classification. -/
theorem riskOfScore_spec (n : Nat) :
    (riskOfScore n = RiskLevel.high ↔ 50 ≤ n) ∧
    (riskOfScore n = RiskLevel.medium ↔ (20 ≤ n ∧ n < 50)) ∧
    (riskOfScore n = RiskLevel.low ↔ n < 20) := by
  unfold riskOfScore
  split_ifs with h1 h2 <;> refine ⟨?_, ?_, ?_⟩ <;> simp <;> omega

/-- C4: for every successfully read file, the risk field equals the
threshold classification of the final score: high iff score at least 50,
medium iff the score is in [20, 50), low iff the score is below 20. -/
theorem c4_risk_thresholds (name : String) (size : Nat) (content : String) :
    ((scanFileForThreats name size (Except.ok content)).risk = RiskLevel.high ↔
      50 ≤ (scanFileForThreats name size (Except.ok content)).score) ∧
    ((scanFileForThreats name size (Except.ok content)).risk = RiskLevel.medium ↔
      (20 ≤ (scanFileForThreats name size (Except.ok content)).score ∧
        (scanFileForThreats name size (Except.ok content)).score < 50)) ∧
    ((scanFileForThreats name size (Except.ok content)).risk = RiskLevel.low ↔
      (scanFileForThreats name size (Except.ok content)).score < 20) := by
  have hrr : (scanFileForThreats name size (Except.ok content)).risk =
      riskOfScore (scanFileForThreats name size (Except.ok content)).score := rfl
  rw [hrr]
  exact riskOfScore_spec _

/-- C5 counterexample: scanning a readable text file whose content is
exactly http://192.168.1.1/login yields risk medium (score 25), not the
high risk the claim states. -/
theorem c5_counterexample :
    (scanFileForThreats "notes.txt" 24
      (Except.ok "http://192.168.1.1/login")).risk ≠ RiskLevel.high := by
  decide

/-- C5 (amended): scanning a readable file whose text is
http://192.168.1.1/login produces exactly one phishing_url threat for the
IP-literal host, no warnings, score 25 and risk medium. -/
theorem c5_phishing_scenario :
    scanFileForThreats "notes.txt" 24 (Except.ok "http://192.168.1.1/login") =
      { threats := [{ type := "phishing_url", severity := Severity.high,
                      message := "Suspicious URL detected: http://192.168.1.1/login",
                      details := some (DetailVal.arr
                        ["Contains suspicious keywords",
                         "Uses IP address instead of domain",
                         "Unusually long subdomain chain"]) }],
        warnings := [], score := 25, risk := RiskLevel.medium, error := none } := by
  decide

/-- C6: the scanner is a total function of its inputs, and a failed
content read produces the unknown-risk result with empty findings, score
zero and an explicit error message, instead of an exception. -/
theorem c6_read_failure_unknown (name : String) (size : Nat) (msg : String) :
    scanFileForThreats name size (Except.error msg) =
      { threats := [], warnings := [], score := 0, risk := RiskLevel.unknown,
        error := some ("Failed to scan file: " ++ msg) } := rfl

/-- The severity predicate satisfied by every threat entry. -/
def isHighSev (f : Finding) : Bool := f.severity == Severity.high

/-- The severity predicate satisfied by every warning entry. -/
def isMedLowSev (f : Finding) : Bool :=
  f.severity == Severity.medium || f.severity == Severity.low

theorem urlStep_threats_all (acc : List Finding × List Finding × Nat)
    (url : String) (h : acc.1.all isHighSev = true) :
    (urlStep acc url).1.all isHighSev = true := by
  unfold urlStep
  split
  · simp [List.all_append, h, isHighSev]
  · split
    · exact h
    · exact h

theorem urlStep_warnings_all (acc : List Finding × List Finding × Nat)
    (url : String) (h : acc.2.1.all isMedLowSev = true) :
    (urlStep acc url).2.1.all isMedLowSev = true := by
  unfold urlStep
  split
  · exact h
  · split
    · simp [List.all_append, h, isMedLowSev]
    · exact h

theorem foldl_urlStep_threats (urls : List String)
    (acc : List Finding × List Finding × Nat) (h : acc.1.all isHighSev = true) :
    (List.foldl urlStep acc urls).1.all isHighSev = true := by
  induction urls generalizing acc with
  | nil => exact h
  | cons u us ih => exact ih _ (urlStep_threats_all _ _ h)

theorem foldl_urlStep_warnings (urls : List String)
    (acc : List Finding × List Finding × Nat) (h : acc.2.1.all isMedLowSev = true) :
    (List.foldl urlStep acc urls).2.1.all isMedLowSev = true := by
  induction urls generalizing acc with
  | nil => exact h
  | cons u us ih => exact ih _ (urlStep_warnings_all _ _ h)

theorem all_filter_isHighSev (l : List Finding) :
    (l.filter (fun p => p.severity == Severity.high)).all isHighSev = true := by
  rw [List.all_eq_true]
  intro f hf
  exact (List.mem_filter.mp hf).2

theorem all_filter_not_high (l : List Finding) :
    (l.filter (fun p => !(p.severity == Severity.high))).all isMedLowSev = true := by
  rw [List.all_eq_true]
  intro f hf
  have hp := (List.mem_filter.mp hf).2
  unfold isMedLowSev
  cases hsev : f.severity
  · simp
  · simp
  · rw [hsev] at hp
    simp at hp

/-- C10: for every successfully read file, every finding in the threats
list has severity high and every finding in the warnings list has
severity medium or low. -/
theorem c10_severity_partition (name : String) (size : Nat) (content : String) :
    (scanFileForThreats name size (Except.ok content)).threats.all isHighSev = true ∧
    (scanFileForThreats name size (Except.ok content)).warnings.all isMedLowSev = true := by
  constructor
  · show (List.all _ isHighSev) = true
    simp only [scanFileForThreats]
    simp only [List.all_append, Bool.and_eq_true]
    refine ⟨⟨⟨?_, ?_⟩, ?_⟩, ?_⟩
    · split <;> simp [isHighSev]
    · exact foldl_urlStep_threats _ _ rfl
    · split <;> simp [isHighSev]
    · exact all_filter_isHighSev _
  · show (List.all _ isMedLowSev) = true
    simp only [scanFileForThreats]
    simp only [List.all_append, Bool.and_eq_true]
    refine ⟨⟨?_, ?_⟩, ?_⟩
    · exact foldl_urlStep_warnings _ _ rfl
    · exact all_filter_not_high _
    · split <;> simp [isMedLowSev]

/-- Embeds calculateEntropy: the Shannon entropy, base 2, of the
character-frequency distribution of the string, summed in frequency-table
order. The JS code computes this with double-precision floats; the
embedding idealizes the arithmetic over the reals. -/
noncomputable def calculateEntropy (s : String) : ℝ :=
  ((charCounts s).map (fun e =>
    -((e.2 : ℝ) / (s.data.length : ℝ) *
      Real.logb 2 ((e.2 : ℝ) / (s.data.length : ℝ))))).sum

theorem charCountsAux_snd_sum (acc : List (Char × Nat)) (c : Char) :
    ((charCountsAux acc c).map (fun e => e.2)).sum =
      (acc.map (fun e => e.2)).sum + 1 := by
  induction acc with
  | nil => simp [charCountsAux]
  | cons hd tl ih =>
    obtain ⟨d, k⟩ := hd
    unfold charCountsAux
    split
    · simp
      omega
    · simp [ih]
      omega

theorem foldl_charCountsAux_snd_sum (l : List Char) (acc : List (Char × Nat)) :
    ((l.foldl charCountsAux acc).map (fun e => e.2)).sum =
      (acc.map (fun e => e.2)).sum + l.length := by
  induction l generalizing acc with
  | nil => simp
  | cons c rest ih =>
    simp only [List.foldl_cons, ih, charCountsAux_snd_sum, List.length_cons]
    omega

theorem charCounts_snd_sum (s : String) :
    ((charCounts s).map (fun e => e.2)).sum = s.data.length := by
  simpa using foldl_charCountsAux_snd_sum s.data []

theorem charCountsAux_snd_pos (acc : List (Char × Nat)) (c : Char)
    (h : ∀ e ∈ acc, 1 ≤ e.2) : ∀ e ∈ charCountsAux acc c, 1 ≤ e.2 := by
  induction acc with
  | nil =>
    intro e he
    simp [charCountsAux] at he
    simp [he]
  | cons hd tl ih =>
    obtain ⟨d, k⟩ := hd
    intro e he
    unfold charCountsAux at he
    split at he
    · rcases List.mem_cons.mp he with h1 | h2
      · subst h1
        omega
      · exact h e (List.mem_cons_of_mem _ h2)
    · rcases List.mem_cons.mp he with h1 | h2
      · subst h1
        exact h (d, k) (List.mem_cons_self _ _)
      · exact ih (fun x hx => h x (List.mem_cons_of_mem _ hx)) e h2

theorem charCounts_snd_pos (s : String) : ∀ e ∈ charCounts s, 1 ≤ e.2 := by
  have hgen : ∀ (l : List Char) (acc : List (Char × Nat)),
      (∀ e ∈ acc, 1 ≤ e.2) → ∀ e ∈ l.foldl charCountsAux acc, 1 ≤ e.2 := by
    intro l
    induction l with
    | nil => intro acc h e he; exact h e he
    | cons c rest ih =>
      intro acc h e he
      exact ih _ (charCountsAux_snd_pos acc c h) e he
  intro e he
  exact hgen s.data [] (by intro x hx; cases hx) e he

theorem foldl_charCountsAux_replicate (c : Char) (m k : Nat) :
    (List.replicate m c).foldl charCountsAux [(c, k)] = [(c, k + m)] := by
  induction m generalizing k with
  | zero => simp
  | succ m ih =>
    have hstep : charCountsAux [(c, k)] c = [(c, k + 1)] := by
      simp [charCountsAux]
    have : k + 1 + m = k + (m + 1) := by omega
    simp only [List.replicate_succ, List.foldl_cons, hstep, ih, this]

theorem charCounts_replicate (c : Char) (n : Nat) (hn : 1 ≤ n) :
    charCounts (String.mk (List.replicate n c)) = [(c, n)] := by
  obtain ⟨m, rfl⟩ : ∃ m, n = m + 1 := ⟨n - 1, by omega⟩
  show (List.replicate (m + 1) c).foldl charCountsAux [] = [(c, m + 1)]
  have hstep : charCountsAux [] c = [(c, 1)] := rfl
  calc (List.replicate (m + 1) c).foldl charCountsAux []
      = (List.replicate m c).foldl charCountsAux [(c, 1)] := by
        simp only [List.replicate_succ, List.foldl_cons, hstep]
    _ = [(c, 1 + m)] := foldl_charCountsAux_replicate c m 1
    _ = [(c, m + 1)] := by rw [Nat.add_comm]

theorem list_sum_map_add {α : Type} (l : List α) (f g : α → ℝ) :
    (l.map (fun x => f x + g x)).sum = (l.map f).sum + (l.map g).sum := by
  induction l with
  | nil => simp
  | cons x xs ih =>
    simp [ih]
    ring

theorem list_sum_map_const {α : Type} (l : List α) (r : ℝ) :
    (l.map (fun _ => r)).sum = l.length * r := by
  induction l with
  | nil => simp
  | cons x xs ih =>
    simp [ih]
    ring

theorem list_sum_map_mul_right {α : Type} (l : List α) (f : α → ℝ) (r : ℝ) :
    (l.map (fun x => f x * r)).sum = (l.map f).sum * r := by
  induction l with
  | nil => simp
  | cons x xs ih =>
    simp [ih]
    ring

theorem list_sum_map_natCast (l : List Nat) :
    (l.map (fun c : Nat => (c : ℝ))).sum = (l.sum : ℝ) := by
  induction l with
  | nil => simp
  | cons x xs ih =>
    simp only [List.map_cons, List.sum_cons, ih]
    push_cast
    ring

/-- The Gibbs-style pointwise bound behind the entropy upper bound:
for positive p and k, -(p log p) is at most 1/k + p (log k - 1). -/
theorem neg_mulLog_le_aux (p k : ℝ) (hp : 0 < p) (hk : 0 < k) :
    -(p * Real.log p) ≤ 1 / k + p * (Real.log k - 1) := by
  have h1 : Real.log (1 / (p * k)) ≤ 1 / (p * k) - 1 :=
    Real.log_le_sub_one_of_pos (by positivity)
  have h2 : Real.log (1 / (p * k)) = -(Real.log p + Real.log k) := by
    rw [one_div, Real.log_inv, Real.log_mul (ne_of_gt hp) (ne_of_gt hk)]
  rw [h2] at h1
  have h3 := mul_le_mul_of_nonneg_left h1 (le_of_lt hp)
  have h4 : p * (1 / (p * k) - 1) = 1 / k - p := by
    field_simp
    ring
  rw [h4] at h3
  nlinarith [h3]

/-- Gibbs inequality for a list of positive counts summing to n: the
natural-log entropy of the induced distribution is at most the log of the
number of symbols. -/
theorem sum_neg_mulLog_le (cs : List Nat) (n : Nat) (hpos : ∀ c ∈ cs, 1 ≤ c)
    (hsum : cs.sum = n) (hn0 : 0 < n) :
    (cs.map (fun c : Nat => -((c : ℝ) / n * Real.log ((c : ℝ) / n)))).sum ≤
      Real.log (cs.length : ℝ) := by
  have hne : cs ≠ [] := by
    intro h
    subst h
    simp at hsum
    omega
  have hklen : 0 < cs.length := List.length_pos.mpr hne
  have hk : (0:ℝ) < (cs.length : ℝ) := by exact_mod_cast hklen
  have hnR : (0:ℝ) < (n : ℝ) := by exact_mod_cast hn0
  have hpt : ∀ c ∈ cs,
      -((c : ℝ) / n * Real.log ((c : ℝ) / n)) ≤
        1 / (cs.length : ℝ) + ((c : ℝ) / n) * (Real.log (cs.length : ℝ) - 1) := by
    intro c hc
    have hc1 : (1:ℝ) ≤ (c : ℝ) := by exact_mod_cast hpos c hc
    have hp : 0 < (c : ℝ) / n := div_pos (lt_of_lt_of_le one_pos hc1) hnR
    exact neg_mulLog_le_aux _ _ hp hk
  have hle := List.sum_le_sum hpt
  have hsum1 : (cs.map (fun c : Nat => (c : ℝ) / n)).sum = 1 := by
    have hfun : (fun c : Nat => (c : ℝ) / n) = fun c : Nat => (c : ℝ) * ((n : ℝ))⁻¹ := by
      funext c
      rw [div_eq_mul_inv]
    rw [hfun, list_sum_map_mul_right, list_sum_map_natCast, hsum,
      mul_inv_cancel₀ (ne_of_gt hnR)]
  have hRHS : (cs.map (fun c : Nat =>
      1 / (cs.length : ℝ) + ((c : ℝ) / n) * (Real.log (cs.length : ℝ) - 1))).sum =
      Real.log (cs.length : ℝ) := by
    rw [list_sum_map_add, list_sum_map_const, list_sum_map_mul_right, hsum1]
    have hkk : (cs.length : ℝ) * (1 / (cs.length : ℝ)) = 1 := by
      field_simp
    rw [hkk]
    ring
  rw [hRHS] at hle
  exact hle

/-- The entropy written over the plain count list, with base-2 logs
converted to natural logs. -/
theorem calculateEntropy_eq_log_sum (s : String) :
    calculateEntropy s =
      (((charCounts s).map (fun e => e.2)).map (fun c : Nat =>
        -((c : ℝ) / (s.data.length : ℝ) *
          Real.log ((c : ℝ) / (s.data.length : ℝ))))).sum * (Real.log 2)⁻¹ := by
  unfold calculateEntropy
  rw [List.map_map]
  have hfun : ((fun c : Nat =>
      -((c : ℝ) / (s.data.length : ℝ) * Real.log ((c : ℝ) / (s.data.length : ℝ)))) ∘
        (fun e : Char × Nat => e.2)) =
      fun e : Char × Nat =>
        -((e.2 : ℝ) / (s.data.length : ℝ) * Real.log ((e.2 : ℝ) / (s.data.length : ℝ))) := by
    funext e
    rfl
  rw [hfun, ← list_sum_map_mul_right]
  have hterm : (fun e : Char × Nat =>
      -((e.2 : ℝ) / (s.data.length : ℝ) * Real.log ((e.2 : ℝ) / (s.data.length : ℝ))) *
        (Real.log 2)⁻¹) =
      fun e : Char × Nat =>
        -((e.2 : ℝ) / (s.data.length : ℝ) *
          Real.logb 2 ((e.2 : ℝ) / (s.data.length : ℝ))) := by
    funext e
    simp only [Real.logb, div_eq_mul_inv]
    ring
  rw [hterm]

/-- C9: calculateEntropy lies in [0, 8] for every string drawing on at
most 256 distinct characters, and is exactly 0 on every repetition of a
single character of length at least 2. -/
theorem c9_entropy_bounds :
    (∀ s : String, (charCounts s).length ≤ 256 →
      0 ≤ calculateEntropy s ∧ calculateEntropy s ≤ 8) ∧
    (∀ (c : Char) (n : Nat), 2 ≤ n →
      calculateEntropy (String.mk (List.replicate n c)) = 0) := by
  constructor
  · intro s h256
    by_cases hn : s.data.length = 0
    · have hdata : s.data = [] := List.length_eq_zero.mp hn
      have hcc : charCounts s = [] := by
        unfold charCounts
        rw [hdata]
        rfl
      unfold calculateEntropy
      rw [hcc]
      norm_num
    · have hnpos : 0 < s.data.length := Nat.pos_of_ne_zero hn
      have hnR : (0:ℝ) < (s.data.length : ℝ) := by exact_mod_cast hnpos
      constructor
      · unfold calculateEntropy
        apply List.sum_nonneg
        intro x hx
        obtain ⟨e, he, rfl⟩ := List.mem_map.mp hx
        have hc1 : 1 ≤ e.2 := charCounts_snd_pos s e he
        have hcle : e.2 ≤ s.data.length := by
          rw [← charCounts_snd_sum s]
          exact List.single_le_sum (fun x _ => Nat.zero_le x) _
            (List.mem_map_of_mem _ he)
        have hp0 : 0 < (e.2 : ℝ) / (s.data.length : ℝ) :=
          div_pos (by exact_mod_cast hc1) hnR
        have hp1 : (e.2 : ℝ) / (s.data.length : ℝ) ≤ 1 := by
          rw [div_le_one hnR]
          exact_mod_cast hcle
        have hlogb : Real.logb 2 ((e.2 : ℝ) / (s.data.length : ℝ)) ≤ 0 :=
          Real.logb_nonpos (by norm_num) (le_of_lt hp0) hp1
        exact neg_nonneg.mpr (mul_nonpos_of_nonneg_of_nonpos (le_of_lt hp0) hlogb)
      · rw [calculateEntropy_eq_log_sum]
        have hsum := charCounts_snd_sum s
        have hlen : ((charCounts s).map (fun e => e.2)).length = (charCounts s).length := by
          simp
        have hbound := sum_neg_mulLog_le ((charCounts s).map (fun e => e.2))
          s.data.length
          (by
            intro c hc
            obtain ⟨e, he, rfl⟩ := List.mem_map.mp hc
            exact charCounts_snd_pos s e he)
          hsum hnpos
        rw [hlen] at hbound
        have hlog2 : (0:ℝ) < Real.log 2 := Real.log_pos (by norm_num)
        have hmul := mul_le_mul_of_nonneg_right hbound
          (le_of_lt (inv_pos.mpr hlog2))
        apply le_trans hmul
        have hcc_pos : 0 < (charCounts s).length := by
          by_contra hzero
          have : (charCounts s).length = 0 := by omega
          have hccnil : charCounts s = [] := List.length_eq_zero.mp this
          rw [hccnil] at hsum
          simp only [List.map_nil, List.sum_nil] at hsum
          omega
        have hklogb : Real.log ((charCounts s).length : ℝ) * (Real.log 2)⁻¹ =
            Real.logb 2 ((charCounts s).length : ℝ) := by
          rw [Real.logb, div_eq_mul_inv]
        rw [hklogb]
        have h1 : Real.logb 2 ((charCounts s).length : ℝ) ≤ Real.logb 2 256 := by
          apply Real.logb_le_logb_of_le (by norm_num)
          · exact_mod_cast hcc_pos
          · exact_mod_cast h256
        have h2 : Real.logb 2 (256 : ℝ) = 8 := by
          have h256eq : (256 : ℝ) = 2 ^ (8 : Nat) := by norm_num
          rw [h256eq, Real.logb_pow, Real.logb_self_eq_one (by norm_num)]
          norm_num
        rw [h2] at h1
        exact h1
  · intro c n hn
    have hcc := charCounts_replicate c n (by omega)
    have hdata : (String.mk (List.replicate n c)).data = List.replicate n c := rfl
    unfold calculateEntropy
    rw [hcc, hdata, List.length_replicate]
    have hnR : ((n : ℝ)) ≠ 0 := by
      have : 0 < n := by omega
      exact_mod_cast Nat.pos_iff_ne_zero.mp this
    simp [div_self hnR]

/-- Witness for C9 at a concrete two-character string. -/
theorem c9_entropy_bounds_witness :
    (0 ≤ calculateEntropy "aa" ∧ calculateEntropy "aa" ≤ 8) ∧
    calculateEntropy (String.mk (List.replicate 2 'a')) = 0 :=
  ⟨c9_entropy_bounds.1 "aa" (by decide), c9_entropy_bounds.2 'a' 2 (by decide)⟩

theorem list_sum_map_neg {α : Type} (l : List α) (f : α → ℝ) :
    (l.map (fun x => -(f x))).sum = -((l.map f).sum) := by
  induction l with
  | nil => simp
  | cons x xs ih =>
    simp only [List.map_cons, List.sum_cons, ih]
    ring

theorem list_sum_map_mul_left {α : Type} (l : List α) (f : α → ℝ) (r : ℝ) :
    (l.map (fun x => r * f x)).sum = r * (l.map f).sum := by
  induction l with
  | nil => simp
  | cons x xs ih =>
    simp [ih]
    ring

theorem list_prod_map_natCast (l : List Nat) (f : Nat → Nat) :
    ((l.map f).prod : ℝ) = (l.map (fun c : Nat => ((f c : Nat) : ℝ))).prod := by
  induction l with
  | nil => simp
  | cons x xs ih =>
    simp only [List.map_cons, List.prod_cons, Nat.cast_mul, ih]

theorem log_list_prod (l : List ℝ) (hl : ∀ x ∈ l, 0 < x) :
    Real.log l.prod = (l.map Real.log).sum := by
  induction l with
  | nil => simp
  | cons x xs ih =>
    have hx : 0 < x := hl x (List.mem_cons_self _ _)
    have hxs : ∀ y ∈ xs, 0 < y := fun y hy => hl y (List.mem_cons_of_mem _ hy)
    have hprod : 0 < xs.prod := List.prod_pos hxs
    simp only [List.prod_cons, List.map_cons, List.sum_cons]
    rw [Real.log_mul (ne_of_gt hx) (ne_of_gt hprod), ih hxs]

theorem list_sum_map_div_self (cs : List Nat) (n : Nat) (hsum : cs.sum = n)
    (hn0 : 0 < n) : (cs.map (fun c : Nat => (c : ℝ) / n)).sum = 1 := by
  have hnR : (0:ℝ) < (n : ℝ) := by exact_mod_cast hn0
  have hfun : (fun c : Nat => (c : ℝ) / n) = fun c : Nat => (c : ℝ) * ((n : ℝ))⁻¹ := by
    funext c
    rw [div_eq_mul_inv]
  rw [hfun, list_sum_map_mul_right, list_sum_map_natCast, hsum,
    mul_inv_cancel₀ (ne_of_gt hnR)]

/-- Rewrites the natural-log entropy sum in closed form: log n minus the
count-weighted log sum divided by n. -/
theorem sum_neg_div_mulLog (cs : List Nat) (n : Nat) (hpos : ∀ c ∈ cs, 1 ≤ c)
    (hsum : cs.sum = n) (hn0 : 0 < n) :
    (cs.map (fun c : Nat => -((c : ℝ) / n * Real.log ((c : ℝ) / n)))).sum =
      Real.log (n : ℝ) -
        (cs.map (fun c : Nat => (c : ℝ) * Real.log (c : ℝ))).sum * ((n : ℝ))⁻¹ := by
  have hnR : (0:ℝ) < (n : ℝ) := by exact_mod_cast hn0
  have hterm : ∀ c ∈ cs,
      -((c : ℝ) / n * Real.log ((c : ℝ) / n)) =
        ((c : ℝ) / n) * Real.log (n : ℝ) +
          -(((c : ℝ) * Real.log (c : ℝ)) * ((n : ℝ))⁻¹) := by
    intro c hc
    have hc1 : (1:ℝ) ≤ (c : ℝ) := by exact_mod_cast hpos c hc
    have hc0 : (0:ℝ) < (c : ℝ) := lt_of_lt_of_le one_pos hc1
    rw [Real.log_div (ne_of_gt hc0) (ne_of_gt hnR)]
    field_simp
    ring
  rw [List.map_congr_left hterm, list_sum_map_add, list_sum_map_neg,
    list_sum_map_mul_right, list_sum_map_mul_right, list_sum_map_div_self cs n hsum hn0]
  ring

/-- The exact-arithmetic entropy test agrees with the real comparison the
JS code makes: the test accepts exactly when the Shannon entropy of the
string exceeds 7.5 bits. -/
theorem entropyAboveThreshold_iff (s : String) :
    entropyAboveThreshold (charCounts s) = true ↔
      (7.5 : ℝ) < calculateEntropy s := by
  have hpos : ∀ c ∈ (charCounts s).map (fun e => e.2), 1 ≤ c := by
    intro c hc
    obtain ⟨e, he, rfl⟩ := List.mem_map.mp hc
    exact charCounts_snd_pos s e he
  have hsum : ((charCounts s).map (fun e => e.2)).sum = s.data.length :=
    charCounts_snd_sum s
  have hunfold : entropyAboveThreshold (charCounts s) = true ↔
      ((charCounts s).map (fun e => e.2 ^ (2 * e.2))).prod *
          2 ^ (15 * s.data.length) <
        s.data.length ^ (2 * s.data.length) := by
    unfold entropyAboveThreshold
    rw [hsum, decide_eq_true_iff]
  rw [hunfold]
  by_cases hn : s.data.length = 0
  · have hdata : s.data = [] := List.length_eq_zero.mp hn
    have hccnil : charCounts s = [] := by
      unfold charCounts
      rw [hdata]
      rfl
    rw [hn, hccnil]
    unfold calculateEntropy
    rw [hccnil]
    simp
    norm_num
  · have hn0 : 0 < s.data.length := Nat.pos_of_ne_zero hn
    have hNR : (0:ℝ) < (s.data.length : ℝ) := by exact_mod_cast hn0
    have hL2 : (0:ℝ) < Real.log 2 := Real.log_pos (by norm_num)
    have hS := sum_neg_div_mulLog ((charCounts s).map (fun e => e.2))
      s.data.length hpos hsum hn0
    have hH : calculateEntropy s =
        (Real.log (s.data.length : ℝ) -
          (((charCounts s).map (fun e => e.2)).map
            (fun c : Nat => (c : ℝ) * Real.log (c : ℝ))).sum *
              ((s.data.length : ℝ))⁻¹) / Real.log 2 := by
      rw [calculateEntropy_eq_log_sum, hS, div_eq_mul_inv]
    rw [hH]
    have hprodmap : ((charCounts s).map (fun e => e.2 ^ (2 * e.2))).prod =
        (((charCounts s).map (fun e => e.2)).map (fun c : Nat => c ^ (2 * c))).prod := by
      rw [List.map_map]
      rfl
    rw [hprodmap]
    -- abbreviations for readability of the remaining real algebra
    have hPpos : 0 < (((charCounts s).map (fun e => e.2)).map
        (fun c : Nat => c ^ (2 * c))).prod := by
      apply List.prod_pos
      intro x hx
      obtain ⟨c, hc, rfl⟩ := List.mem_map.mp hx
      have := hpos c hc
      positivity
    have hlogP : Real.log (((((charCounts s).map (fun e => e.2)).map
          (fun c : Nat => c ^ (2 * c))).prod : Nat) : ℝ) =
        2 * (((charCounts s).map (fun e => e.2)).map
          (fun c : Nat => (c : ℝ) * Real.log (c : ℝ))).sum := by
      rw [list_prod_map_natCast, log_list_prod]
      · rw [List.map_map]
        have hcong : ∀ c ∈ (charCounts s).map (fun e => e.2),
            (Real.log ∘ fun c : Nat => ((c ^ (2 * c) : Nat) : ℝ)) c =
              2 * ((c : ℝ) * Real.log (c : ℝ)) := by
          intro c hc
          show Real.log ((c ^ (2 * c) : Nat) : ℝ) = 2 * ((c : ℝ) * Real.log (c : ℝ))
          push_cast
          rw [Real.log_pow]
          push_cast
          ring
        rw [List.map_congr_left hcong, list_sum_map_mul_left]
      · intro x hx
        obtain ⟨c, hc, rfl⟩ := List.mem_map.mp hx
        have hc1 := hpos c hc
        have : (0:ℝ) < (c : ℝ) := by exact_mod_cast hc1
        positivity
    rw [← Nat.cast_lt (α := ℝ)]
    have hposL : (0:ℝ) < (((((charCounts s).map (fun e => e.2)).map
        (fun c : Nat => c ^ (2 * c))).prod * 2 ^ (15 * s.data.length) : Nat) : ℝ) := by
      have : 0 < (((charCounts s).map (fun e => e.2)).map
          (fun c : Nat => c ^ (2 * c))).prod * 2 ^ (15 * s.data.length) :=
        Nat.mul_pos hPpos (Nat.pos_pow_of_pos _ (by omega))
      exact_mod_cast this
    have hposR : (0:ℝ) < ((s.data.length ^ (2 * s.data.length) : Nat) : ℝ) := by
      have : 0 < s.data.length ^ (2 * s.data.length) := Nat.pos_pow_of_pos _ hn0
      exact_mod_cast this
    rw [← Real.log_lt_log_iff hposL hposR]
    have hcastL : (((((charCounts s).map (fun e => e.2)).map
        (fun c : Nat => c ^ (2 * c))).prod * 2 ^ (15 * s.data.length) : Nat) : ℝ) =
        (((((charCounts s).map (fun e => e.2)).map
          (fun c : Nat => c ^ (2 * c))).prod : Nat) : ℝ) * (2:ℝ) ^ (15 * s.data.length) := by
      push_cast
      ring
    have hcastR : ((s.data.length ^ (2 * s.data.length) : Nat) : ℝ) =
        ((s.data.length : ℝ)) ^ (2 * s.data.length) := by
      push_cast
      ring
    rw [hcastL, hcastR]
    have hPR0 : (((((charCounts s).map (fun e => e.2)).map
        (fun c : Nat => c ^ (2 * c))).prod : Nat) : ℝ) ≠ 0 := by
      have : (0:ℝ) < (((((charCounts s).map (fun e => e.2)).map
          (fun c : Nat => c ^ (2 * c))).prod : Nat) : ℝ) := by exact_mod_cast hPpos
      exact ne_of_gt this
    rw [Real.log_mul hPR0 (by positivity), hlogP, Real.log_pow, Real.log_pow]
    rw [lt_div_iff₀ hL2]
    push_cast
    constructor
    · intro h
      have hinvpos : (0:ℝ) < ((s.data.length : ℝ))⁻¹ := inv_pos.mpr hNR
      have h1 := mul_lt_mul_of_pos_right h hinvpos
      have hNN : (s.data.length : ℝ) * ((s.data.length : ℝ))⁻¹ = 1 :=
        mul_inv_cancel₀ (ne_of_gt hNR)
      have e1 : (2 * (((charCounts s).map (fun e => e.2)).map
          (fun c : Nat => (c : ℝ) * Real.log (c : ℝ))).sum +
            15 * (s.data.length : ℝ) * Real.log 2) * ((s.data.length : ℝ))⁻¹ =
          2 * ((((charCounts s).map (fun e => e.2)).map
            (fun c : Nat => (c : ℝ) * Real.log (c : ℝ))).sum *
              ((s.data.length : ℝ))⁻¹) + 15 * Real.log 2 := by
        linear_combination (15 * Real.log 2) * hNN
      have e2 : (2 * (s.data.length : ℝ) * Real.log (s.data.length : ℝ)) *
          ((s.data.length : ℝ))⁻¹ = 2 * Real.log (s.data.length : ℝ) := by
        linear_combination (2 * Real.log (s.data.length : ℝ)) * hNN
      rw [e1, e2] at h1
      linarith
    · intro h
      have h2N : (0:ℝ) < 2 * (s.data.length : ℝ) := by positivity
      have h1 := mul_lt_mul_of_pos_right h h2N
      have e1 : (7.5 : ℝ) * Real.log 2 * (2 * (s.data.length : ℝ)) =
          15 * (s.data.length : ℝ) * Real.log 2 := by
        ring
      have hNN : (s.data.length : ℝ) * ((s.data.length : ℝ))⁻¹ = 1 :=
        mul_inv_cancel₀ (ne_of_gt hNR)
      have e2 : (Real.log (s.data.length : ℝ) -
          (((charCounts s).map (fun e => e.2)).map
            (fun c : Nat => (c : ℝ) * Real.log (c : ℝ))).sum *
              ((s.data.length : ℝ))⁻¹) * (2 * (s.data.length : ℝ)) =
          2 * (s.data.length : ℝ) * Real.log (s.data.length : ℝ) -
            2 * (((charCounts s).map (fun e => e.2)).map
              (fun c : Nat => (c : ℝ) * Real.log (c : ℝ))).sum := by
        linear_combination (-2 * (((charCounts s).map (fun e => e.2)).map
          (fun c : Nat => (c : ℝ) * Real.log (c : ℝ))).sum) * hNN
      rw [e1, e2] at h1
      linarith

end Cryptee
